import Mathlib

/-!
Shallow embedding of the credit-card statement parser (`src/parser.py`).

The parser's field extractors are ordered cascades of Python `re` patterns.
We embed the fragment of Python regular expressions these patterns use
(character classes, literals, alternation, greedy/lazy repetition, bounded
repetition, capture groups) as a backtracking matcher whose result list is
ordered by Python's backtracking priority: the head of the list is the match
Python's engine returns.  `re.IGNORECASE` is modelled by case-folding literal
characters inside the patterns; the text itself is left in original case, so
capture groups preserve case, as in Python.
-/

namespace CCStmt

/-- A kind of regular expression covering exactly the constructs used by the
patterns in `parser.py`.  Repetition (`starCls`) is restricted to single
character classes, which is all those patterns ever repeat. -/
inductive RE where
  | eps
  | cls (p : Char → Bool)
  | cat (a b : RE)
  | alt (a b : RE)
  | starCls (p : Char → Bool) (greedy : Bool)
  | group (n : Nat) (a : RE)

/-- Captured groups: group number paired with captured characters.
Later captures are prepended; lookup takes the first hit. -/
abbrev Groups := List (Nat × List Char)

/-- Suffixes of `s` left after `p*` consumes a prefix, shortest consumption
first (the lazy backtracking order; greedy reverses it). -/
def starSplits (p : Char → Bool) : List Char → List (List Char)
  | [] => [[]]
  | c :: rest => (c :: rest) :: (if p c then starSplits p rest else [])

/-- The backtracking matcher.  `mat r s g` returns every (suffix, groups)
pair reachable by matching `r` against a prefix of `s`, in Python's
backtracking priority order: alternation tries the left branch first, greedy
repetition the longest consumption first, lazy repetition the shortest. -/
def mat : RE → List Char → Groups → List (List Char × Groups)
  | .eps, s, g => [(s, g)]
  | .cls p, s, g =>
    match s with
    | [] => []
    | c :: rest => if p c then [(rest, g)] else []
  | .cat a b, s, g => (mat a s g).flatMap fun x => mat b x.1 x.2
  | .alt a b, s, g => mat a s g ++ mat b s g
  | .starCls p greedy, s, g =>
    (if greedy then (starSplits p s).reverse else starSplits p s).map fun s' => (s', g)
  | .group n a, s, g =>
    (mat a s g).map fun x => (x.1, (n, s.take (s.length - x.1.length)) :: x.2)

/-- `re.search`: scan start positions left to right, return the groups and
the remainder after the first (leftmost, highest-priority) match. -/
def searchParts (r : RE) : List Char → Option (Groups × List Char)
  | [] =>
    match mat r [] [] with
    | x :: _ => some (x.2, x.1)
    | [] => none
  | c :: rest =>
    match mat r (c :: rest) [] with
    | x :: _ => some (x.2, x.1)
    | [] => searchParts r rest

/-- First entry with the given group number, as `Match.group`. -/
def getGroup (g : Groups) (n : Nat) : Option (List Char) :=
  match g with
  | [] => none
  | (m, v) :: rest => if m == n then some v else getGroup rest n

/-- `re.finditer` (fuelled; each iteration consumes at least one character,
so `s.length + 1` units of fuel are never exhausted): non-overlapping
matches, scanning resumes at the end of each match, advancing by one
character after an empty match. -/
def finditerAux (r : RE) : Nat → List Char → List Groups
  | 0, _ => []
  | fuel + 1, s =>
    match searchParts r s with
    | none => []
    | some (g, rest) =>
      if rest.length < s.length then g :: finditerAux r fuel rest
      else
        match s with
        | [] => [g]
        | _ :: tail => g :: finditerAux r fuel tail

def finditer (r : RE) (s : List Char) : List Groups :=
  finditerAux r (s.length + 1) s

/-! ### Pattern-building helpers (the regex syntax used in `parser.py`) -/

/-- A literal character. -/
def chr (c : Char) : RE := .cls (fun x => x == c)

/-- A literal character under `re.IGNORECASE` (`c` given in lowercase). -/
def ichr (c : Char) : RE := .cls (fun x => x.toLower == c)

/-- A literal string under `re.IGNORECASE`. -/
def istr (s : String) : RE := s.data.foldr (fun c r => .cat (ichr c) r) .eps

/-- Greedy `?`. -/
def opt (r : RE) : RE := .alt r .eps

/-- Greedy `+` over a class. -/
def plusCls (p : Char → Bool) : RE := .cat (.cls p) (.starCls p true)

/-- Lazy `+?` over a class. -/
def lazyPlusCls (p : Char → Bool) : RE := .cat (.cls p) (.starCls p false)

/-- `p{n}`. -/
def repExact (p : Char → Bool) : Nat → RE
  | 0 => .eps
  | n + 1 => .cat (.cls p) (repExact p n)

/-- Greedy `p{0,n}`. -/
def repOpt (p : Char → Bool) : Nat → RE
  | 0 => .eps
  | n + 1 => .alt (.cat (.cls p) (repOpt p n)) .eps

/-- Greedy `p{lo,hi}`. -/
def repRange (p : Char → Bool) (lo hi : Nat) : RE :=
  .cat (repExact p lo) (repOpt p (hi - lo))

/-- `(?:a|b|...)`, left branch first. -/
def alts : List RE → RE
  | [] => .eps
  | [r] => r
  | r :: rs => .alt r (alts rs)

/-! ### Character classes -/

/-- `\s` (ASCII whitespace, as in the statement texts considered). -/
def isWs (c : Char) : Bool :=
  c == ' ' || c == '\t' || c == '\n' || c == '\r' || c == '\x0b' || c == '\x0c'

/-- `\d`. -/
def isDig (c : Char) : Bool := c.isDigit

/-- `[0-9,]`. -/
def amC (c : Char) : Bool := c.isDigit || c == ','

/-- `[xX*]`. -/
def xCls (c : Char) : Bool := c == 'x' || c == 'X' || c == '*'

/-- the slash-or-dash date separator class. -/
def slashDash (c : Char) : Bool := c == '/' || c == '-'

/-- `[\s#:]`. -/
def wsHashColon (c : Char) : Bool := isWs c || c == '#' || c == ':'

/-- `[\s:]`. -/
def wsColon (c : Char) : Bool := isWs c || c == ':'

/-- `[\s-]`. -/
def wsDash (c : Char) : Bool := isWs c || c == '-'

/-- `[A-Za-z\s\*&\-\.]` (transaction description characters). -/
def descC (c : Char) : Bool :=
  ('A' ≤ c && c ≤ 'Z') || ('a' ≤ c && c ≤ 'z') || isWs c ||
    c == '*' || c == '&' || c == '-' || c == '.'

def wsStar : RE := .starCls isWs true
def wsPlus : RE := plusCls isWs
def wsColonStar : RE := .starCls wsColon true
def wsHashColonStar : RE := .starCls wsHashColon true

/-- the date shape: 1-2 digits, separator, 1-2 digits, separator, 2-4 digits. -/
def dateRE : RE :=
  .cat (repRange isDig 1 2) (.cat (.cls slashDash)
    (.cat (repRange isDig 1 2) (.cat (.cls slashDash) (repRange isDig 2 4))))

/-- `(?:to|-|through)`. -/
def toThrough : RE := alts [istr "to", chr '-', istr "through"]

/-- `(?:Rs\.?|INR|USD|\$)`. -/
def currency : RE :=
  alts [.cat (istr "rs") (opt (chr '.')), istr "inr", istr "usd", chr '$']

def currencyOpt : RE := opt currency

/-- `([0-9,]+\.?\d*)` — the total-amount capture. -/
def totalAmountGroup : RE :=
  .group 1 (.cat (plusCls amC) (.cat (opt (chr '.')) (.starCls isDig true)))

/-- `[0-9,]+\.?\d{2}` — the transaction-amount shape (group 3's body). -/
def txnAmountCore : RE :=
  .cat (plusCls amC) (.cat (opt (chr '.')) (.cat (.cls isDig) (.cls isDig)))

/-! ### The pattern tables of `parser.py` -/

/-- `extract_card_last_four` patterns, in source order. -/
def cardPats : List RE :=
  [ .cat (.alt (istr "card") (istr "account")) (.cat wsHashColonStar
      (.cat (opt (.alt (istr "ending") (istr "number"))) (.cat wsHashColonStar
        (.cat (repRange xCls 4 12) (.group 1 (repExact isDig 4)))))),
    .cat (repRange xCls 4 12) (.cat (opt (.cls wsDash)) (.group 1 (repExact isDig 4))),
    .cat (.group 1 (repExact isDig 4)) (.cat wsStar (.alt (istr "card") (istr "account"))),
    .cat (istr "account") (.cat wsPlus (.cat (istr "number") (.cat wsColonStar
      (.cat (plusCls xCls) (.group 1 (repExact isDig 4)))))) ]

/-- The two-date tail shared by the billing-cycle patterns: group 1 a date,
optional spaces, to or dash or through, optional spaces, group 2 a date. -/
def cycleDates : RE :=
  .cat (.group 1 dateRE) (.cat wsStar (.cat toThrough (.cat wsStar (.group 2 dateRE))))

/-- `extract_billing_cycle` patterns, in source order. -/
def billingPats : List RE :=
  [ .cat (.alt (istr "billing") (istr "statement")) (.cat wsPlus
      (.cat (alts [istr "period", istr "cycle", istr "date"]) (.cat wsColonStar cycleDates))),
    .cat (istr "statement") (.cat wsPlus (.cat (istr "from") (.cat wsColonStar cycleDates))),
    cycleDates ]

/-- `extract_payment_due_date` patterns, in source order. -/
def duePats : List RE :=
  [ .cat (.alt (istr "payment") (istr "pay")) (.cat wsPlus (.cat (istr "due")
      (.cat wsPlus (.cat (.alt (istr "date") (istr "by")) (.cat wsColonStar (.group 1 dateRE)))))),
    .cat (istr "due") (.cat wsPlus (.cat (istr "date") (.cat wsColonStar (.group 1 dateRE)))),
    .cat (istr "please") (.cat wsPlus (.cat (istr "pay") (.cat wsPlus
      (.cat (istr "by") (.cat wsColonStar (.group 1 dateRE)))))) ]

/-- `extract_total_amount_due` patterns, in source order. -/
def totalPats : List RE :=
  [ .cat (alts [istr "total", istr "new", istr "amount"]) (.cat wsPlus
      (.cat (alts [istr "balance", istr "due", istr "amount due"]) (.cat wsColonStar
        (.cat currencyOpt (.cat wsStar totalAmountGroup))))),
    .cat (.alt (istr "amount") (istr "payment")) (.cat wsPlus (.cat (istr "due")
      (.cat wsColonStar (.cat currencyOpt (.cat wsStar totalAmountGroup))))),
    .cat (.alt (istr "minimum") (istr "total")) (.cat wsPlus
      (.cat (.alt (istr "payment") (istr "amount")) (.cat wsPlus (.cat (istr "due")
        (.cat wsColonStar (.cat currencyOpt (.cat wsStar totalAmountGroup))))))),
    .cat (istr "new") (.cat wsPlus (.cat (istr "balance") (.cat wsColonStar
      (.cat currencyOpt (.cat wsStar totalAmountGroup))))) ]

/-- Everything of the transaction pattern before its amount group. -/
def txnPre : RE :=
  .cat (.group 1 dateRE) (.cat wsPlus (.cat (.group 2 (lazyPlusCls descC))
    (.cat wsPlus (.cat currencyOpt wsStar))))

/-- The transaction-line pattern: group 1 a date, whitespace, group 2 a lazy
run of description characters, whitespace, optional currency marker, optional
whitespace, group 3 an amount ending in two digits. -/
def txnRE : RE := .cat txnPre (.group 3 txnAmountCore)

/-! ### The parser (`CreditCardParser` methods over the extracted text) -/

/-- Does `needle` occur as a contiguous sublist of `hay`? -/
def isSubList (needle : List Char) : List Char → Bool
  | [] => needle.isPrefixOf []
  | c :: t => needle.isPrefixOf (c :: t) || isSubList needle t

/-- Python's `needle in hay` on strings: raw substring containment. -/
def containsSub (hay needle : String) : Bool := isSubList needle.data hay.data

/-- Python `str.lower()` (character-wise lowering). -/
def pyLower (s : String) : String := String.mk (s.data.map Char.toLower)

def amexCond (t : String) : Bool :=
  containsSub (pyLower t) "american express" || containsSub (pyLower t) "amex"

def chaseCond (t : String) : Bool :=
  containsSub (pyLower t) "chase" &&
    (containsSub (pyLower t) "credit card" || containsSub (pyLower t) "visa" ||
      containsSub (pyLower t) "mastercard")

def citiCond (t : String) : Bool :=
  containsSub (pyLower t) "citibank" || containsSub (pyLower t) "citi"

def hdfcCond (t : String) : Bool := containsSub (pyLower t) "hdfc"

def iciciCond (t : String) : Bool := containsSub (pyLower t) "icici"

/-- `CreditCardParser.identify_issuer`. -/
def identify_issuer (t : String) : String :=
  if amexCond t then "American Express"
  else if chaseCond t then "Chase"
  else if citiCond t then "Citibank"
  else if hdfcCond t then "HDFC Bank"
  else if iciciCond t then "ICICI Bank"
  else "Unknown"

/-- The `for pattern in patterns: if re.search(...): ...` cascade: groups of
the first pattern in the list that matches anywhere in the text. -/
def searchFirstPats (ps : List RE) (s : List Char) : Option Groups :=
  match ps with
  | [] => none
  | p :: rest =>
    match searchParts p s with
    | some (g, _) => some g
    | none => searchFirstPats rest s

/-- `CreditCardParser.extract_card_last_four` (`return match.group(1)`). -/
def extract_card_last_four (text : String) : Option String :=
  match searchFirstPats cardPats text.data with
  | some g => (getGroup g 1).map String.mk
  | none => none

/-- `CreditCardParser.extract_billing_cycle`: a dict with `group(1)` and
`group(2)` (each conceptually optional on the Python side), or `None`. -/
def extract_billing_cycle (text : String) : Option (Option String × Option String) :=
  match searchFirstPats billingPats text.data with
  | some g => some ((getGroup g 1).map String.mk, (getGroup g 2).map String.mk)
  | none => none

/-- `CreditCardParser.extract_payment_due_date`. -/
def extract_payment_due_date (text : String) : Option String :=
  match searchFirstPats duePats text.data with
  | some g => (getGroup g 1).map String.mk
  | none => none

/-- `CreditCardParser.extract_total_amount_due`
(`match.group(1).replace(',', '')`; group 1 always participates in these
patterns, so the `Option.map` never hides a missing group). -/
def extract_total_amount_due (text : String) : Option String :=
  match searchFirstPats totalPats text.data with
  | some g => (getGroup g 1).map fun l => String.mk (l.filter fun c => c != ',')
  | none => none

structure TransactionRecord where
  date : String
  description : String
  amount : String
deriving DecidableEq, Repr

/-- Python `str.strip()` on the description. -/
def pyStrip (l : List Char) : List Char :=
  ((l.dropWhile isWs).reverse.dropWhile isWs).reverse

/-- One transaction record from one match (`match.group(1/2/3)`; all three
groups always participate in the transaction pattern). -/
def mkTxn (g : Groups) : TransactionRecord :=
  { date := String.mk ((getGroup g 1).getD [])
    description := String.mk (pyStrip ((getGroup g 2).getD []))
    amount := String.mk (((getGroup g 3).getD []).filter fun c => c != ',') }

/-- The collection loop of `extract_transactions`: append each match, stop
once ten records have been collected. -/
def collectTxns : List Groups → List TransactionRecord → List TransactionRecord
  | [], acc => acc
  | g :: rest, acc =>
    let acc' := acc ++ [mkTxn g]
    if 10 ≤ acc'.length then acc' else collectTxns rest acc'

/-- `CreditCardParser.extract_transactions`. -/
def extract_transactions (text : String) : List TransactionRecord :=
  collectTxns (finditer txnRE text.data) []

structure ParseResult where
  issuer : String
  card_last_four : Option String
  billing_cycle : Option (Option String × Option String)
  payment_due_date : Option String
  total_amount_due : Option String
  transactions : List TransactionRecord
deriving DecidableEq, Repr

/-- `CreditCardParser.parse`, over the already-extracted statement text
(PDF text extraction is the external collaborator). -/
def parse (text : String) : ParseResult :=
  { issuer := identify_issuer text
    card_last_four := extract_card_last_four text
    billing_cycle := extract_billing_cycle text
    payment_due_date := extract_payment_due_date text
    total_amount_due := extract_total_amount_due text
    transactions := extract_transactions text }


/-! ### Specification-side definition for the issuer cascade (refinement) -/

/-- The issuer priority table, in the spec's declaration order. -/
def issuerTable : List (String × (String → Bool)) :=
  [("American Express", amexCond), ("Chase", chaseCond), ("Citibank", citiCond),
   ("HDFC Bank", hdfcCond), ("ICICI Bank", iciciCond)]

/-- The spec's wording of issuer identification: a strict priority cascade
evaluated issuer-by-issuer in declaration order; the first issuer whose
condition holds on the lowercased text wins, otherwise "Unknown". -/
def issuerCascadeSpec (t : String) : String :=
  ((issuerTable.find? fun pr => pr.2 t).map Prod.fst).getD "Unknown"

/-! ### Helper lemmas -/

theorem identify_issuer_eq_cascade (t : String) : identify_issuer t = issuerCascadeSpec t := by
  cases h1 : amexCond t <;> cases h2 : chaseCond t <;> cases h3 : citiCond t <;>
    cases h4 : hdfcCond t <;> cases h5 : iciciCond t <;>
      simp [identify_issuer, issuerCascadeSpec, issuerTable, List.find?, h1, h2, h3, h4, h5]

theorem identify_issuer_mem (t : String) :
    identify_issuer t ∈
      ["American Express", "Chase", "Citibank", "HDFC Bank", "ICICI Bank", "Unknown"] := by
  cases h1 : amexCond t <;> cases h2 : chaseCond t <;> cases h3 : citiCond t <;>
    cases h4 : hdfcCond t <;> cases h5 : iciciCond t <;>
      simp [identify_issuer, h1, h2, h3, h4, h5]

theorem identify_issuer_chase_iff (t : String) :
    identify_issuer t = "Chase" ↔ amexCond t = false ∧ chaseCond t = true := by
  cases h1 : amexCond t <;> cases h2 : chaseCond t <;> cases h3 : citiCond t <;>
    cases h4 : hdfcCond t <;> cases h5 : iciciCond t <;>
      simp [identify_issuer, h1, h2, h3, h4, h5]

/-- The pattern cascade: either every pattern fails and the cascade returns
`none`, or the list splits at the first matching pattern, whose groups are
returned without consulting any later pattern. -/
theorem searchFirstPats_cases (ps : List RE) (s : List Char) :
    ((∀ p ∈ ps, searchParts p s = none) ∧ searchFirstPats ps s = none) ∨
    (∃ pre p suf g rest, ps = pre ++ p :: suf ∧ (∀ q ∈ pre, searchParts q s = none) ∧
      searchParts p s = some (g, rest) ∧ searchFirstPats ps s = some g) := by
  induction ps with
  | nil => exact Or.inl ⟨by simp, rfl⟩
  | cons p ps ih =>
    cases h : searchParts p s with
    | some gr =>
      refine Or.inr ⟨[], p, ps, gr.1, gr.2, rfl, by simp, by simpa using h, ?_⟩
      simp [searchFirstPats, h]
    | none =>
      rcases ih with ⟨hall, hres⟩ | ⟨pre, q, suf, g, rest, hps, hpre, hq, hres⟩
      · refine Or.inl ⟨?_, by simp [searchFirstPats, h, hres]⟩
        intro r hr
        rcases List.mem_cons.1 hr with rfl | hr
        · exact h
        · exact hall r hr
      · refine Or.inr ⟨p :: pre, q, suf, g, rest, by rw [hps]; rfl, ?_, hq,
          by simp [searchFirstPats, h, hres]⟩
        intro x hx
        rcases List.mem_cons.1 hx with rfl | hx
        · exact h
        · exact hpre x hx

/-- The transaction collection loop equals "first ten matches, in order". -/
theorem collectTxns_eq (l : List Groups) :
    ∀ acc : List TransactionRecord, acc.length < 10 →
      collectTxns l acc = acc ++ (l.map mkTxn).take (10 - acc.length) := by
  induction l with
  | nil => intro acc _; simp [collectTxns]
  | cons g l ih =>
    intro acc hacc
    simp only [collectTxns, List.map_cons]
    by_cases h10 : 10 ≤ (acc ++ [mkTxn g]).length
    · have h9 : acc.length = 9 := by simp at h10; omega
      have h1 : 10 - acc.length = 1 := by omega
      rw [if_pos h10, h1, List.take_succ_cons, List.take_zero]
    · have h9 : (acc ++ [mkTxn g]).length < 10 := by omega
      have hlt : acc.length + 1 < 10 := by simpa using h9
      rw [if_neg h10, ih (acc ++ [mkTxn g]) h9]
      have : 10 - acc.length = (10 - (acc.length + 1)) + 1 := by omega
      rw [this, List.take_succ_cons]
      simp

/-! ### Engine membership lemmas -/

theorem mem_mat_eps {s : List Char} {g : Groups} {x} (hx : x ∈ mat .eps s g) : x = (s, g) := by
  simpa [mat] using hx

theorem mem_mat_cls {p : Char → Bool} {s : List Char} {g : Groups} {x}
    (hx : x ∈ mat (.cls p) s g) : ∃ c t, s = c :: t ∧ p c = true ∧ x = (t, g) := by
  cases s with
  | nil => simp [mat] at hx
  | cons c t =>
    by_cases hc : p c
    · refine ⟨c, t, rfl, hc, ?_⟩
      simpa [mat, hc] using hx
    · simp [mat, hc] at hx

theorem mem_mat_cat {a b : RE} {s : List Char} {g : Groups} {x}
    (hx : x ∈ mat (.cat a b) s g) : ∃ y, y ∈ mat a s g ∧ x ∈ mat b y.1 y.2 := by
  simpa [mat, List.mem_flatMap] using hx

theorem mem_mat_alt {a b : RE} {s : List Char} {g : Groups} {x}
    (hx : x ∈ mat (.alt a b) s g) : x ∈ mat a s g ∨ x ∈ mat b s g := by
  simpa [mat, List.mem_append] using hx

theorem starSplits_mem {p : Char → Bool} {s t : List Char} (h : t ∈ starSplits p s) :
    ∃ u, s = u ++ t ∧ ∀ c ∈ u, p c = true := by
  induction s with
  | nil =>
    simp [starSplits] at h
    exact ⟨[], by simp [h], by simp⟩
  | cons c rest ih =>
    simp only [starSplits] at h
    rcases List.mem_cons.1 h with rfl | h2
    · exact ⟨[], rfl, by simp⟩
    · by_cases hc : p c
      · rw [if_pos hc] at h2
        obtain ⟨u, rfl, hu⟩ := ih h2
        refine ⟨c :: u, rfl, ?_⟩
        intro d hd
        rcases List.mem_cons.1 hd with rfl | hd
        · exact hc
        · exact hu d hd
      · rw [if_neg hc] at h2
        simp at h2

theorem mem_mat_star {p : Char → Bool} {gr : Bool} {s : List Char} {g : Groups} {x}
    (hx : x ∈ mat (.starCls p gr) s g) :
    ∃ u t, s = u ++ t ∧ (∀ c ∈ u, p c = true) ∧ x = (t, g) := by
  simp only [mat] at hx
  obtain ⟨s', hs', rfl⟩ := List.mem_map.1 hx
  have hs2 : s' ∈ starSplits p s := by
    cases gr with
    | false => simpa using hs'
    | true => simpa [List.mem_reverse] using hs'
  obtain ⟨u, rfl, hu⟩ := starSplits_mem hs2
  exact ⟨u, s', rfl, hu, rfl⟩

theorem mem_mat_group {n : Nat} {a : RE} {s : List Char} {g : Groups} {x}
    (hx : x ∈ mat (.group n a) s g) :
    ∃ y, y ∈ mat a s g ∧ x = (y.1, (n, s.take (s.length - y.1.length)) :: y.2) := by
  simp only [mat] at hx
  obtain ⟨y, hy, rfl⟩ := List.mem_map.1 hx
  exact ⟨y, hy, rfl⟩

theorem mat_groups_mono {r : RE} :
    ∀ {s : List Char} {g : Groups} {x}, x ∈ mat r s g → ∃ pre, x.2 = pre ++ g := by
  induction r with
  | eps =>
    intro s g x hx
    rw [mem_mat_eps hx]
    exact ⟨[], rfl⟩
  | cls p =>
    intro s g x hx
    obtain ⟨c, t, _, _, rfl⟩ := mem_mat_cls hx
    exact ⟨[], rfl⟩
  | cat a b iha ihb =>
    intro s g x hx
    obtain ⟨y, hy, hx2⟩ := mem_mat_cat hx
    obtain ⟨p1, hp1⟩ := iha hy
    obtain ⟨p2, hp2⟩ := ihb hx2
    exact ⟨p2 ++ p1, by rw [hp2, hp1, List.append_assoc]⟩
  | alt a b iha ihb =>
    intro s g x hx
    rcases mem_mat_alt hx with h | h
    · exact iha h
    · exact ihb h
  | starCls p gr =>
    intro s g x hx
    obtain ⟨u, t, _, _, rfl⟩ := mem_mat_star hx
    exact ⟨[], rfl⟩
  | group n a iha =>
    intro s g x hx
    obtain ⟨y, hy, rfl⟩ := mem_mat_group hx
    obtain ⟨p1, hp1⟩ := iha hy
    exact ⟨(n, s.take (s.length - y.1.length)) :: p1, by simp [hp1]⟩

/-- Group `n` participates in every successful match of `r`: it occurs
outside every skippable alternation branch and outside every repetition. -/
def mand : RE → Nat → Bool
  | .eps, _ => false
  | .cls _, _ => false
  | .cat a b, n => mand a n || mand b n
  | .alt a b, n => mand a n && mand b n
  | .starCls _ _, _ => false
  | .group m a, n => m == n || mand a n

theorem mand_mem {r : RE} {n : Nat} :
    ∀ {s : List Char} {g : Groups} {x}, mand r n = true → x ∈ mat r s g →
      ∃ v, (n, v) ∈ x.2 := by
  induction r with
  | eps => intro s g x h _; simp [mand] at h
  | cls p => intro s g x h _; simp [mand] at h
  | starCls p gr => intro s g x h _; simp [mand] at h
  | cat a b iha ihb =>
    intro s g x h hx
    obtain ⟨y, hy, hx2⟩ := mem_mat_cat hx
    have hor : mand a n = true ∨ mand b n = true := by
      have h2 : (mand a n || mand b n) = true := by simpa [mand] using h
      simpa using h2
    rcases hor with ha | hb
    · obtain ⟨v, hv⟩ := iha ha hy
      obtain ⟨pre, hpre⟩ := mat_groups_mono hx2
      refine ⟨v, ?_⟩
      rw [hpre]
      exact List.mem_append_right _ hv
    · exact ihb hb hx2
  | alt a b iha ihb =>
    intro s g x h hx
    have hab : mand a n = true ∧ mand b n = true := by
      have h2 : (mand a n && mand b n) = true := by simpa [mand] using h
      simpa using h2
    rcases mem_mat_alt hx with h2 | h2
    · exact iha hab.1 h2
    · exact ihb hab.2 h2
  | group m a iha =>
    intro s g x h hx
    obtain ⟨y, hy, rfl⟩ := mem_mat_group hx
    by_cases hm : (m == n) = true
    · have : m = n := beq_iff_eq.mp hm
      subst this
      exact ⟨s.take (s.length - y.1.length), List.mem_cons_self _ _⟩
    · have ha : mand a n = true := by
        have h2 : ((m == n) || mand a n) = true := by simpa [mand] using h
        rcases (by simpa using h2 : (m == n) = true ∨ mand a n = true) with h1 | h1
        · exact absurd h1 hm
        · exact h1
      obtain ⟨v, hv⟩ := iha ha hy
      exact ⟨v, List.mem_cons_of_mem _ hv⟩

theorem getGroup_isSome_of_mem {g : Groups} {n : Nat} {v : List Char} (h : (n, v) ∈ g) :
    ∃ w, getGroup g n = some w := by
  induction g with
  | nil => simp at h
  | cons e t ih =>
    obtain ⟨m, w⟩ := e
    by_cases hm : (m == n) = true
    · exact ⟨w, by simp [getGroup, hm]⟩
    · rcases List.mem_cons.1 h with he | h2
      · injection he with h1 h2
        subst h1
        simp at hm
      · obtain ⟨u, hu⟩ := ih h2
        exact ⟨u, by simp [getGroup, hm, hu]⟩

/-- Does `r` contain a capture group numbered `n` anywhere? -/
def hasGroup : RE → Nat → Bool
  | .eps, _ => false
  | .cls _, _ => false
  | .cat a b, n => hasGroup a n || hasGroup b n
  | .alt a b, n => hasGroup a n || hasGroup b n
  | .starCls _ _, _ => false
  | .group m a, n => m == n || hasGroup a n

theorem mat_getGroup_stable {r : RE} {n : Nat} :
    ∀ {s : List Char} {g : Groups} {x}, hasGroup r n = false → x ∈ mat r s g →
      getGroup x.2 n = getGroup g n := by
  induction r with
  | eps =>
    intro s g x _ hx
    rw [mem_mat_eps hx]
  | cls p =>
    intro s g x _ hx
    obtain ⟨c, t, _, _, rfl⟩ := mem_mat_cls hx
    rfl
  | starCls p gr =>
    intro s g x _ hx
    obtain ⟨u, t, _, _, rfl⟩ := mem_mat_star hx
    rfl
  | cat a b iha ihb =>
    intro s g x h hx
    have ha : hasGroup a n = false ∧ hasGroup b n = false := by
      simpa [hasGroup] using h
    obtain ⟨y, hy, hx2⟩ := mem_mat_cat hx
    rw [ihb ha.2 hx2, iha ha.1 hy]
  | alt a b iha ihb =>
    intro s g x h hx
    have ha : hasGroup a n = false ∧ hasGroup b n = false := by
      simpa [hasGroup] using h
    rcases mem_mat_alt hx with h2 | h2
    · exact iha ha.1 h2
    · exact ihb ha.2 h2
  | group m a iha =>
    intro s g x h hx
    have hm : (m == n) = false ∧ hasGroup a n = false := by
      simpa [hasGroup] using h
    obtain ⟨y, hy, rfl⟩ := mem_mat_group hx
    show getGroup ((m, _) :: y.2) n = getGroup g n
    rw [show getGroup ((m, s.take (s.length - y.1.length)) :: y.2) n = getGroup y.2 n by
      simp [getGroup, hm.1]]
    exact iha hm.2 hy

theorem searchParts_sound {r : RE} :
    ∀ {s : List Char} {g : Groups} {rest : List Char},
      searchParts r s = some (g, rest) → ∃ s₀, (rest, g) ∈ mat r s₀ [] := by
  intro s
  induction s with
  | nil =>
    intro g rest h
    cases hm : mat r [] [] with
    | nil => simp [searchParts, hm] at h
    | cons x xs =>
      obtain ⟨a, b⟩ := x
      simp [searchParts, hm] at h
      obtain ⟨rfl, rfl⟩ := h
      refine ⟨[], ?_⟩
      rw [hm]
      exact List.mem_cons_self _ _
  | cons c t ih =>
    intro g rest h
    cases hm : mat r (c :: t) [] with
    | nil =>
      simp only [searchParts, hm] at h
      exact ih h
    | cons x xs =>
      obtain ⟨a, b⟩ := x
      simp [searchParts, hm] at h
      obtain ⟨rfl, rfl⟩ := h
      refine ⟨c :: t, ?_⟩
      rw [hm]
      exact List.mem_cons_self _ _

theorem searchFirstPats_sound {ps : List RE} {s : List Char} {g : Groups}
    (h : searchFirstPats ps s = some g) :
    ∃ p ∈ ps, ∃ rest, searchParts p s = some (g, rest) := by
  induction ps with
  | nil => simp [searchFirstPats] at h
  | cons p ptail ih =>
    cases hp : searchParts p s with
    | some gr =>
      obtain ⟨g0, rest0⟩ := gr
      simp [searchFirstPats, hp] at h
      subst h
      exact ⟨p, List.mem_cons_self _ _, rest0, hp⟩
    | none =>
      simp only [searchFirstPats, hp] at h
      obtain ⟨q, hq, rest, hrest⟩ := ih h
      exact ⟨q, List.mem_cons_of_mem _ hq, rest, hrest⟩

theorem finditerAux_sound {r : RE} :
    ∀ {fuel : Nat} {s : List Char} {g : Groups}, g ∈ finditerAux r fuel s →
      ∃ s₀ rest, (rest, g) ∈ mat r s₀ [] := by
  intro fuel
  induction fuel with
  | zero => intro s g h; simp [finditerAux] at h
  | succ fuel ih =>
    intro s g h
    cases hs : searchParts r s with
    | none => simp [finditerAux, hs] at h
    | some pr =>
      obtain ⟨g0, rest0⟩ := pr
      simp only [finditerAux, hs] at h
      by_cases hlen : rest0.length < s.length
      · rw [if_pos hlen] at h
        rcases List.mem_cons.1 h with rfl | h2
        · obtain ⟨s₀, hmem⟩ := searchParts_sound hs
          exact ⟨s₀, rest0, hmem⟩
        · exact ih h2
      · rw [if_neg hlen] at h
        cases s with
        | nil =>
          simp at h
          subst h
          obtain ⟨s₀, hmem⟩ := searchParts_sound hs
          exact ⟨s₀, rest0, hmem⟩
        | cons c tail =>
          rcases List.mem_cons.1 h with rfl | h2
          · obtain ⟨s₀, hmem⟩ := searchParts_sound hs
            exact ⟨s₀, rest0, hmem⟩
          · exact ih h2

theorem finditer_sound {r : RE} {s : List Char} {g : Groups} (h : g ∈ finditer r s) :
    ∃ s₀ rest, (rest, g) ∈ mat r s₀ [] :=
  finditerAux_sound h


/-! ### Shape of the captured transaction amount -/

theorem txnAmountCore_mem {s : List Char} {g : Groups} {x}
    (hx : x ∈ mat txnAmountCore s g) :
    ∃ ds dot d1 d2, s = (ds ++ dot ++ [d1, d2]) ++ x.1 ∧ ds ≠ [] ∧
      (∀ c ∈ ds, amC c = true) ∧ (dot = [] ∨ dot = ['.']) ∧
      isDig d1 = true ∧ isDig d2 = true ∧ x.2 = g := by
  simp only [txnAmountCore, plusCls, opt, chr] at hx
  obtain ⟨y1, hy1, hx1⟩ := mem_mat_cat hx
  obtain ⟨y2, hy2, hy12⟩ := mem_mat_cat hy1
  obtain ⟨c, t, hs, hc, rfl⟩ := mem_mat_cls hy2
  dsimp only at hy12
  obtain ⟨u, t2, ht, hu, rfl⟩ := mem_mat_star hy12
  dsimp only at hx1
  subst hs
  subst ht
  obtain ⟨y3, hy3, hx3⟩ := mem_mat_cat hx1
  have hmem : ∀ d ∈ c :: u, amC d = true := by
    intro d hd
    rcases List.mem_cons.1 hd with rfl | hd
    · exact hc
    · exact hu d hd
  rcases mem_mat_alt hy3 with hdotm | hepsm
  · obtain ⟨cd, t3, ht2, hcd, rfl⟩ := mem_mat_cls hdotm
    have hcd2 : cd = '.' := beq_iff_eq.mp hcd
    subst hcd2
    dsimp only at hx3
    subst ht2
    obtain ⟨y4, hy4, hx4⟩ := mem_mat_cat hx3
    obtain ⟨d1, t4, ht3, hd1, rfl⟩ := mem_mat_cls hy4
    dsimp only at hx4
    subst ht3
    obtain ⟨d2, t5, ht4, hd2, hxeq⟩ := mem_mat_cls hx4
    subst ht4
    refine ⟨c :: u, ['.'], d1, d2, ?_, by simp, hmem, Or.inr rfl, hd1, hd2,
      by simp [hxeq]⟩
    simp [hxeq]
  · have hy3e := mem_mat_eps hepsm
    subst hy3e
    dsimp only at hx3
    obtain ⟨y4, hy4, hx4⟩ := mem_mat_cat hx3
    obtain ⟨d1, t4, ht3, hd1, rfl⟩ := mem_mat_cls hy4
    dsimp only at hx4
    subst ht3
    obtain ⟨d2, t5, ht4, hd2, hxeq⟩ := mem_mat_cls hx4
    subst ht4
    refine ⟨c :: u, [], d1, d2, ?_, by simp, hmem, Or.inl rfl, hd1, hd2,
      by simp [hxeq]⟩
    simp [hxeq]

theorem txnRE_group3 {s : List Char} {x} (hx : x ∈ mat txnRE s []) :
    ∃ w, getGroup x.2 3 = some w ∧
      ∃ ds dot d1 d2, w = ds ++ dot ++ [d1, d2] ∧ ds ≠ [] ∧ (∀ c ∈ ds, amC c = true) ∧
        (dot = [] ∨ dot = ['.']) ∧ isDig d1 = true ∧ isDig d2 = true := by
  rw [show txnRE = .cat txnPre (.group 3 txnAmountCore) from rfl] at hx
  obtain ⟨y, hy, hx2⟩ := mem_mat_cat hx
  obtain ⟨z, hz, hxeq⟩ := mem_mat_group hx2
  obtain ⟨ds, dot, d1, d2, hsplit, hds, hdsmem, hdot, hd1, hd2, hzg⟩ := txnAmountCore_mem hz
  have hw : y.1.take (y.1.length - z.1.length) = ds ++ dot ++ [d1, d2] := by
    rw [hsplit]
    have hlen : ((ds ++ dot ++ [d1, d2]) ++ z.1).length - z.1.length
        = (ds ++ dot ++ [d1, d2]).length := by
      simp
      omega
    rw [hlen, List.take_left]
  refine ⟨ds ++ dot ++ [d1, d2], ?_, ds, dot, d1, d2, rfl, hds, hdsmem, hdot, hd1, hd2⟩
  rw [hxeq]
  show getGroup ((3, y.1.take (y.1.length - z.1.length)) :: z.2) 3 = _
  simp [getGroup, hw]

theorem isDig_bne_comma {c : Char} (h : isDig c = true) : (c != ',') = true := by
  by_cases he : c = ','
  · subst he
    simp [isDig] at h
  · exact bne_iff_ne.mpr he

/-- Every transaction record's amount string, after comma stripping, is a
run of digits followed by an optional decimal point and two final digits. -/
theorem txn_amount_shape {t : String} {r : TransactionRecord}
    (hr : r ∈ extract_transactions t) :
    ∃ ds dot d1 d2, r.amount.data = ds ++ dot ++ [d1, d2] ∧
      (∀ c ∈ ds, c.isDigit = true) ∧ (dot = [] ∨ dot = ['.']) ∧
      d1.isDigit = true ∧ d2.isDigit = true := by
  have h1 : extract_transactions t = ((finditer txnRE t.data).map mkTxn).take 10 := by
    rw [extract_transactions, collectTxns_eq _ [] (by norm_num)]
    simp
  rw [h1] at hr
  have hr2 : r ∈ (finditer txnRE t.data).map mkTxn := List.take_subset _ _ hr
  obtain ⟨g, hg, rfl⟩ := List.mem_map.1 hr2
  obtain ⟨s₀, rest, hmem⟩ := finditer_sound hg
  obtain ⟨w, hw, ds, dot, d1, d2, hweq, hds, hdsmem, hdot, hd1, hd2⟩ := txnRE_group3 hmem
  have hw2 : getGroup g 3 = some w := hw
  have hamt : (mkTxn g).amount.data = (w.filter fun c => c != ',') := by
    simp [mkTxn, hw2]
  refine ⟨ds.filter (fun c => c != ','), dot, d1, d2, ?_, ?_, hdot, hd1, hd2⟩
  · rw [hamt, hweq, List.filter_append, List.filter_append]
    have hdotf : (dot.filter fun c => c != ',') = dot := by
      rcases hdot with rfl | rfl
      · rfl
      · rfl
    have hddf : ([d1, d2].filter fun c => c != ',') = [d1, d2] := by
      simp [List.filter, isDig_bne_comma hd1, isDig_bne_comma hd2]
    rw [hdotf, hddf]
  · intro c hc
    have hc2 := List.mem_filter.1 hc
    have hcm : amC c = true := hdsmem c hc2.1
    rcases (by simpa [amC] using hcm : c.isDigit = true ∨ (c == ',') = true) with h | h
    · exact h
    · exact absurd (beq_iff_eq.mp h) (bne_iff_ne.mp hc2.2)

/-! ### Helper lemmas for the billing cycle and comma stripping -/

theorem billing_all_or_nothing (t : String) :
    extract_billing_cycle t = none ∨
      ∃ a b, extract_billing_cycle t = some (some a, some b) := by
  cases h : searchFirstPats billingPats t.data with
  | none => exact Or.inl (by simp [extract_billing_cycle, h])
  | some g =>
    obtain ⟨p, hp, rest, hrest⟩ := searchFirstPats_sound h
    obtain ⟨s₀, hmem⟩ := searchParts_sound hrest
    have hmand : mand p 1 = true ∧ mand p 2 = true := by
      fin_cases hp <;> exact ⟨by decide, by decide⟩
    obtain ⟨v1, hv1⟩ := mand_mem hmand.1 hmem
    obtain ⟨v2, hv2⟩ := mand_mem hmand.2 hmem
    obtain ⟨w1, hw1⟩ := getGroup_isSome_of_mem hv1
    obtain ⟨w2, hw2⟩ := getGroup_isSome_of_mem hv2
    exact Or.inr ⟨String.mk w1, String.mk w2,
      by simp [extract_billing_cycle, h, hw1, hw2]⟩

theorem total_amount_no_comma {t a : String}
    (h : extract_total_amount_due t = some a) : ',' ∉ a.data := by
  cases hs : searchFirstPats totalPats t.data with
  | none => simp [extract_total_amount_due, hs] at h
  | some g =>
    simp only [extract_total_amount_due, hs, Option.map_eq_some'] at h
    obtain ⟨l, _, rfl⟩ := h
    intro hmem
    have := (List.mem_filter.1 hmem).2
    simp at this

theorem txn_amount_no_comma {t : String} {r : TransactionRecord}
    (hr : r ∈ extract_transactions t) : ',' ∉ r.amount.data := by
  obtain ⟨ds, dot, d1, d2, heq, hds, hdot, hd1, hd2⟩ := txn_amount_shape hr
  intro hmem
  rw [heq] at hmem
  rcases List.mem_append.1 hmem with h1 | h2
  · rcases List.mem_append.1 h1 with ha | hb
    · exact absurd (hds ',' ha) (by decide)
    · rcases hdot with rfl | rfl
      · simp at hb
      · rw [List.mem_singleton] at hb
        exact absurd hb (by decide)
  · rcases List.mem_cons.1 h2 with he | h3
    · rw [← he] at hd1
      exact absurd hd1 (by decide)
    · rw [List.mem_singleton] at h3
      rw [← h3] at hd2
      exact absurd hd2 (by decide)

/-! ### The claims -/

/-- C1: `identify_issuer` returns exactly one name from the fixed set
{American Express, Chase, Citibank, HDFC Bank, ICICI Bank} or "Unknown",
chosen by a strict priority cascade evaluated issuer-by-issuer in declaration
order on the lowercased text (the refinement `issuerCascadeSpec` is that
cascade verbatim); the Chase condition is compound ("chase" and one of
"credit card"/"visa"/"mastercard"), so the Chase branch fires exactly when no
higher-priority issuer matched and the compound condition holds — a text
containing "chase" but none of the three is never identified as Chase. -/
theorem claim_C1 (t : String) :
    identify_issuer t = issuerCascadeSpec t ∧
    identify_issuer t ∈
      ["American Express", "Chase", "Citibank", "HDFC Bank", "ICICI Bank", "Unknown"] ∧
    (identify_issuer t = "Chase" ↔ amexCond t = false ∧ chaseCond t = true) :=
  ⟨identify_issuer_eq_cascade t, identify_issuer_mem t, identify_issuer_chase_iff t⟩

/-- C2: each field extractor tries its ordered pattern list against the full
original-case text and returns the post-processed capture group(s) of the
first pattern that matches — every earlier pattern having failed — and
returns the absent value when no pattern matches, as a normal outcome. -/
theorem claim_C2 (t : String) :
    (((∀ p ∈ cardPats, searchParts p t.data = none) ∧ extract_card_last_four t = none) ∨
      (∃ pre p suf g rest, cardPats = pre ++ p :: suf ∧
        (∀ q ∈ pre, searchParts q t.data = none) ∧ searchParts p t.data = some (g, rest) ∧
        extract_card_last_four t = (getGroup g 1).map String.mk)) ∧
    (((∀ p ∈ billingPats, searchParts p t.data = none) ∧ extract_billing_cycle t = none) ∨
      (∃ pre p suf g rest, billingPats = pre ++ p :: suf ∧
        (∀ q ∈ pre, searchParts q t.data = none) ∧ searchParts p t.data = some (g, rest) ∧
        extract_billing_cycle t =
          some ((getGroup g 1).map String.mk, (getGroup g 2).map String.mk))) ∧
    (((∀ p ∈ duePats, searchParts p t.data = none) ∧ extract_payment_due_date t = none) ∨
      (∃ pre p suf g rest, duePats = pre ++ p :: suf ∧
        (∀ q ∈ pre, searchParts q t.data = none) ∧ searchParts p t.data = some (g, rest) ∧
        extract_payment_due_date t = (getGroup g 1).map String.mk)) ∧
    (((∀ p ∈ totalPats, searchParts p t.data = none) ∧ extract_total_amount_due t = none) ∨
      (∃ pre p suf g rest, totalPats = pre ++ p :: suf ∧
        (∀ q ∈ pre, searchParts q t.data = none) ∧ searchParts p t.data = some (g, rest) ∧
        extract_total_amount_due t =
          (getGroup g 1).map fun l => String.mk (l.filter fun c => c != ','))) := by
  refine ⟨?_, ?_, ?_, ?_⟩
  · rcases searchFirstPats_cases cardPats t.data with ⟨hall, hres⟩ |
      ⟨pre, p, suf, g, rest, hsplit, hpre, hp, hres⟩
    · exact Or.inl ⟨hall, by simp [extract_card_last_four, hres]⟩
    · exact Or.inr ⟨pre, p, suf, g, rest, hsplit, hpre, hp,
        by simp [extract_card_last_four, hres]⟩
  · rcases searchFirstPats_cases billingPats t.data with ⟨hall, hres⟩ |
      ⟨pre, p, suf, g, rest, hsplit, hpre, hp, hres⟩
    · exact Or.inl ⟨hall, by simp [extract_billing_cycle, hres]⟩
    · exact Or.inr ⟨pre, p, suf, g, rest, hsplit, hpre, hp,
        by simp [extract_billing_cycle, hres]⟩
  · rcases searchFirstPats_cases duePats t.data with ⟨hall, hres⟩ |
      ⟨pre, p, suf, g, rest, hsplit, hpre, hp, hres⟩
    · exact Or.inl ⟨hall, by simp [extract_payment_due_date, hres]⟩
    · exact Or.inr ⟨pre, p, suf, g, rest, hsplit, hpre, hp,
        by simp [extract_payment_due_date, hres]⟩
  · rcases searchFirstPats_cases totalPats t.data with ⟨hall, hres⟩ |
      ⟨pre, p, suf, g, rest, hsplit, hpre, hp, hres⟩
    · exact Or.inl ⟨hall, by simp [extract_total_amount_due, hres]⟩
    · exact Or.inr ⟨pre, p, suf, g, rest, hsplit, hpre, hp,
        by simp [extract_total_amount_due, hres]⟩

/-- C3: `extract_transactions` returns exactly the first ten matches of the
transaction pattern, in text order with no deduplication (it is the
ten-record prefix of the full match list), hence never more than ten. -/
theorem claim_C3 (t : String) :
    extract_transactions t = ((finditer txnRE t.data).map mkTxn).take 10 ∧
    (extract_transactions t).length ≤ 10 := by
  have h1 : extract_transactions t = ((finditer txnRE t.data).map mkTxn).take 10 := by
    rw [extract_transactions, collectTxns_eq _ [] (by norm_num)]
    simp
  refine ⟨h1, ?_⟩
  rw [h1]
  have := List.length_take 10 ((finditer txnRE t.data).map mkTxn)
  omega

/-- C4: `extract_billing_cycle` is all-or-nothing: it returns `none` or a
record in which both dates were captured; a text where only the start-date
part of a pattern can match (no matching end date) yields `none`. -/
theorem claim_C4 :
    (∀ t : String, extract_billing_cycle t = none ∨
      ∃ a b, extract_billing_cycle t = some (some a, some b)) ∧
    extract_billing_cycle "Statement period 01/01/2024 to " = none :=
  ⟨billing_all_or_nothing, by decide⟩

/-- The concrete scenario text of the spec, with its separators taken
literally. -/
def scenarioText : String :=
  "American Express ... Card ending XXXXXXXXXX1234 ... Statement period 01/01/2024 to 31/01/2024 ... Payment due date 15/02/2024 ... Total amount due Rs. 12,345.67 ... 05/01/2024 COFFEE SHOP 450.00"

set_option maxRecDepth 200000 in
/-- C5 counterexample: on the scenario text the parser does not produce the
claimed single-transaction result: the transaction pattern also matches the
"15/02/2024 ... Total amount due Rs. 12,345.67" span, so the transaction
list has two records, not one. -/
theorem claim_C5_counterexample :
    parse scenarioText ≠
      { issuer := "American Express"
        card_last_four := some "1234"
        billing_cycle := some (some "01/01/2024", some "31/01/2024")
        payment_due_date := some "15/02/2024"
        total_amount_due := some "12345.67"
        transactions :=
          [{ date := "05/01/2024", description := "COFFEE SHOP", amount := "450.00" }] } := by
  decide

set_option maxRecDepth 200000 in
/-- C5 (amended): parsing the scenario text yields the claimed issuer, card
digits, billing cycle, due date and total, but the transaction list contains
two records: a spurious one spanning the due-date and total-amount segments,
followed by the coffee-shop transaction. -/
theorem claim_C5 :
    parse scenarioText =
      { issuer := "American Express"
        card_last_four := some "1234"
        billing_cycle := some (some "01/01/2024", some "31/01/2024")
        payment_due_date := some "15/02/2024"
        total_amount_due := some "12345.67"
        transactions :=
          [{ date := "15/02/2024", description := "... Total amount due",
             amount := "12345.67" },
           { date := "05/01/2024", description := "COFFEE SHOP", amount := "450.00" }] } := by
  decide

/-- C6 counterexample: the transaction-amount pattern's decimal point is
optional, so an amount with no decimal point is produced: on
"01/01/2024 SHOP 450" the extracted amount is "450". -/
theorem claim_C6_counterexample :
    (extract_transactions "01/01/2024 SHOP 450").map (fun r => r.amount) = ["450"] ∧
    '.' ∉ ("450" : String).data := by
  refine ⟨by decide, by decide⟩

/-- C6 (amended): every transaction amount, after comma stripping, consists
of a (possibly empty) run of digits, an optional decimal point, and exactly
two final digits; an amount with no decimal point can be produced. -/
theorem claim_C6 (t : String) (r : TransactionRecord) (hr : r ∈ extract_transactions t) :
    ∃ ds dot d1 d2, r.amount.data = ds ++ dot ++ [d1, d2] ∧
      (∀ c ∈ ds, c.isDigit = true) ∧ (dot = [] ∨ dot = ['.']) ∧
      d1.isDigit = true ∧ d2.isDigit = true :=
  txn_amount_shape hr

/-- C6 witness: the amended statement instantiated on a concrete text and
its extracted transaction. -/
theorem claim_C6_witness :
    ∃ ds dot d1 d2,
      (TransactionRecord.mk "05/01/2024" "COFFEE SHOP" "450.00").amount.data
        = ds ++ dot ++ [d1, d2] ∧
      (∀ c ∈ ds, c.isDigit = true) ∧ (dot = [] ∨ dot = ['.']) ∧
      d1.isDigit = true ∧ d2.isDigit = true :=
  claim_C6 "05/01/2024 COFFEE SHOP 450.00"
    (TransactionRecord.mk "05/01/2024" "COFFEE SHOP" "450.00") (by decide)

/-- C7: amounts returned by `extract_total_amount_due` and
`extract_transactions` never contain a comma (separators are stripped), and
the input occurrence "1,234.56" yields the output "1234.56". -/
theorem claim_C7 :
    (∀ t a : String, extract_total_amount_due t = some a → ',' ∉ a.data) ∧
    (∀ (t : String) (r : TransactionRecord), r ∈ extract_transactions t →
      ',' ∉ r.amount.data) ∧
    extract_total_amount_due "Total amount due 1,234.56" = some "1234.56" :=
  ⟨fun _ _ h => total_amount_no_comma h, fun _ _ hr => txn_amount_no_comma hr, by decide⟩

/-- C7 witness: the comma-free guarantees instantiated on concrete inputs. -/
theorem claim_C7_witness :
    ',' ∉ ("1234.56" : String).data ∧
      ',' ∉ (TransactionRecord.mk "01/01/2024" "A" "1450.00").amount.data :=
  ⟨claim_C7.1 "Total amount due 1,234.56" "1234.56" (by decide),
    claim_C7.2.1 "01/01/2024 A 1,450.00"
      (TransactionRecord.mk "01/01/2024" "A" "1450.00") (by decide)⟩

/-- C8: the parsing pipeline is total; on the empty text it yields issuer
"Unknown", all four optional fields absent and an empty transaction list,
with no error. -/
theorem claim_C8 :
    parse "" =
      { issuer := "Unknown"
        card_last_four := none
        billing_cycle := none
        payment_due_date := none
        total_amount_due := none
        transactions := [] } := by
  decide

/-- C9: the issuer field of every parse result is present and is one of the
five known issuer names or the literal "Unknown" — never anything else. -/
theorem claim_C9 (t : String) :
    (parse t).issuer ∈
      ["American Express", "Chase", "Citibank", "HDFC Bank", "ICICI Bank", "Unknown"] :=
  identify_issuer_mem t

/-- C10: issuer keyword matching is raw substring containment with no word
boundaries: "citizen" (containing "citi") is identified as Citibank, and
"a purchase with visa" (where "purchase" contains "chase") as Chase, though
neither text names an issuer. -/
theorem claim_C10 :
    identify_issuer "citizen" = "Citibank" ∧
    identify_issuer "a purchase with visa" = "Chase" := by
  refine ⟨by decide, by decide⟩

end CCStmt
